import Mathlib

/-
  Shallow embedding of `src/form.ts` (kaid/stupid_form_model): a composable
  value/validation tree with scalar leaf nodes (`ScalarModel`), composite
  nodes (`ComplexModel`), a recursive tree builder, and built-in rules.

  JavaScript values relevant to this development are modelled by `Value`;
  stateful methods are modelled by explicit state passing (a method that
  mutates `this` becomes a function returning the updated model).  The
  TypeScript source declares `iterateRules(): Array<string>` but the loop
  body can fall off the end without a `return`, so at runtime the method can
  produce `undefined`; the stored `rejections` field is therefore modelled
  as `Option (List String)` (`none` = `undefined`).  A getter that can raise
  a `TypeError` is modelled as `Except String Bool`.
-/

namespace StupidForm

/-- Models the JavaScript values this form library manipulates: `null`,
`undefined`, numbers (whole numbers suffice for every property considered
here; `nanV` is the number `NaN`), strings, and plain records. -/
inductive Value where
  | nullV
  | undefV
  | numV (n : Int)
  | nanV
  | strV (s : String)
  | objV (fields : List (String × Value))

/-- Whitespace recognised when coercing a string to a number. -/
def isJsSpace (c : Char) : Bool :=
  c.toNat = 32 || c.toNat = 9 || c.toNat = 10 || c.toNat = 13

/-- Trim leading and trailing whitespace from a character list. -/
def trimChars (cs : List Char) : List Char :=
  ((cs.dropWhile isJsSpace).reverse.dropWhile isJsSpace).reverse

/-- Accumulate decimal digits; any non-digit character aborts the parse. -/
def parseDigitsAux : List Char → Nat → Option Nat
  | [], n => some n
  | c :: cs, n =>
    if c.isDigit then parseDigitsAux cs (n * 10 + (c.toNat - 48)) else none

/-- Parse a non-empty all-digit character list as a natural number. -/
def parseDigits : List Char → Option Nat
  | [] => none
  | cs => parseDigitsAux cs 0

/-- Models JavaScript `Number(...)` on strings, restricted to optionally
signed whole-number literals: surrounding whitespace is trimmed, the empty
(or all-whitespace) string coerces to `0`, and any other string that is not
a signed digit sequence coerces to `NaN` (`none`). -/
def strToNumber (s : String) : Option Int :=
  match trimChars s.data with
  | [] => some 0
  | '-' :: cs => (parseDigits cs).map (fun n => -(n : Int))
  | '+' :: cs => (parseDigits cs).map (fun n => (n : Int))
  | cs => (parseDigits cs).map (fun n => (n : Int))

/-- Models JavaScript `Number(v)` coercion on this value domain; `none`
stands for `NaN`.  `Number(null)` is `0`, `Number(undefined)` is `NaN`,
and a plain record coerces to `NaN`. -/
def jsToNumber : Value → Option Int
  | .nullV => some 0
  | .undefV => none
  | .numV n => some n
  | .nanV => none
  | .strV s => strToNumber s
  | .objV _ => none

/-- Models lodash `clone` (a shallow copy).  At the level of values —
ignoring reference identity, which a value-based embedding cannot observe —
a shallow copy denotes the same value. -/
def clone (v : Value) : Value := v

/-- Look up a property in a record's field list (first match wins; a
JavaScript object has unique keys, so this is ordinary property lookup). -/
def lookupField : List (String × Value) → String → Option Value
  | [], _ => none
  | (k, v) :: rest, key => if k = key then some v else lookupField rest key

/-- Models the property access `v[key]` as used by the composite `value`
setter: on a record it is lookup (absent key gives `undefined`); on the
primitive values of this domain it gives `undefined`. -/
def jsGet (v : Value) (key : String) : Value :=
  match v with
  | .objV fs => (lookupField fs key).getD Value.undefV
  | _ => Value.undefV

/-- The codomain of a validation rule, `Nullable<string | false | 0>` in the
source: `null`, `undefined`, `false`, `0`, or a string. -/
inductive RuleResult where
  | nullR
  | undefR
  | falseR
  | zeroR
  | strR (s : String)

/-- A validation rule: given the current (nullable) value, produce a
rejection message or a falsy acceptance signal. -/
abbrev Validate := Value → RuleResult

/-- Built-in rule `nonNullable` from `form.ts`:
`val => includes([null, undefined, ''], val) && '不能为空'`.
When `val` is `null`, `undefined` or the empty string the `&&` yields the
message; otherwise it yields `false`. -/
def nonNullable : Validate := fun val =>
  match val with
  | .nullV => .strR "不能为空"
  | .undefV => .strR "不能为空"
  | .strV s => if s = "" then .strR "不能为空" else .falseR
  | _ => .falseR

/-- Built-in rule `mustBeNumber` from `form.ts`:
`val => isNaN(Number(val)) && '必须为数字'`. -/
def mustBeNumber : Validate := fun val =>
  match jsToNumber val with
  | none => .strR "必须为数字"
  | some _ => .falseR

/-- The `FieldState` interface of `form.ts`.  `rejections` is declared
`Array<string>` in the source but `validate()` can store the `undefined`
produced by `iterateRules`, hence `Option (List String)`. -/
structure FieldState where
  field : String
  label : Option String
  touched : Bool
  value : Value
  placeholder : Option String
  rejections : Option (List String)

/-- The `FieldModelOptions` interface of `form.ts`.  Optional booleans are
modelled as `Bool` (absent = `false`, matching their truthiness uses). -/
structure FieldModelOptions where
  initialValue : Option Value
  required : Bool
  validateAllRules : Bool

/-- The `ScalarModel` class: its mutable `state`, rule chain, options, and
the `initialValue` captured at construction. -/
structure ScalarModel where
  state : FieldState
  rules : List Validate
  options : FieldModelOptions
  initialValue : Value

/-- The `ScalarModel` constructor (also its static `from`): stores state,
rules and options, and captures
`clone(options.initialValue === undefined ? null : options.initialValue)`. -/
def ScalarModel.make (state : FieldState) (rules : List Validate)
    (options : FieldModelOptions) : ScalarModel :=
  { state := state, rules := rules, options := options,
    initialValue := clone (options.initialValue.getD Value.nullV) }

/-- The `value` getter: returns the stored value, no side effects. -/
def ScalarModel.getValue (m : ScalarModel) : Value := m.state.value

/-- The `value` setter: stores the value verbatim and, if the node was not
yet touched, flips `touched` to `true`. -/
def ScalarModel.setValue (m : ScalarModel) (v : Value) : ScalarModel :=
  let st := { m.state with value := v }
  if st.touched then { m with state := st }
  else { m with state := { st with touched := true } }

/-- The loop body of `iterateRules`: run each rule in order on `v`; a falsy
result (`null`, `undefined`, `false`, `0`, or the empty string) is skipped;
a truthy message is pushed, and in short-circuit mode
(`validateAllRules` false) the collected list is returned at once.  When
the loop finishes without an early return the JavaScript function falls off
the end and produces `undefined`, modelled as `none`. -/
def iterateRulesGo (v : Value) (validateAllRules : Bool) :
    List Validate → List String → Option (List String)
  | [], _ => none
  | check :: rest, result =>
    match check v with
    | .strR s =>
      if s = "" then iterateRulesGo v validateAllRules rest result
      else
        if validateAllRules then iterateRulesGo v validateAllRules rest (result ++ [s])
        else some (result ++ [s])
    | _ => iterateRulesGo v validateAllRules rest result

/-- `ScalarModel.iterateRules`: run the rule chain on the current value. -/
def ScalarModel.iterateRules (m : ScalarModel) : Option (List String) :=
  iterateRulesGo m.state.value m.options.validateAllRules m.rules []

/-- `ScalarModel.validate`: set `touched`, store the result of
`iterateRules` into `state.rejections`, and return it. -/
def ScalarModel.validate (m : ScalarModel) : ScalarModel × Option (List String) :=
  let m1 := { m with state := { m.state with touched := true } }
  let rej := m1.iterateRules
  ({ m1 with state := { m1.state with rejections := rej } }, rej)

/-- The `valid` getter: `!touched || Boolean(rejections.length)`.  When
`touched` is set and `rejections` is `undefined`, reading `.length` raises
a `TypeError`, modelled as `Except.error`. -/
def ScalarModel.valid (m : ScalarModel) : Except String Bool :=
  if !m.state.touched then .ok true
  else
    match m.state.rejections with
    | some rs => .ok (!rs.isEmpty)
    | none => .error "TypeError"

/-- The `required` getter: `Boolean(this.options?.required)`. -/
def ScalarModel.required (m : ScalarModel) : Bool := m.options.required

/-- `ScalarModel.reset`: assigns `clone(this.initialValue)` through the
`value` setter, then sets `touched` to `false`. -/
def ScalarModel.reset (m : ScalarModel) : ScalarModel :=
  let m1 := m.setValue (clone m.initialValue)
  { m1 with state := { m1.state with touched := false } }

/-- Specification-side predicate: the message of the first rule in the
chain that returns a truthy rejection for `v`, if any. -/
def firstTruthy : List Validate → Value → Option String
  | [], _ => none
  | check :: rest, v =>
    match check v with
    | .strR s => if s = "" then firstTruthy rest v else some s
    | _ => firstTruthy rest v

/-- The `FormModelOptions` interface of `form.ts`. -/
structure FormModelOptions where
  validateAllRules : Bool

mutual

/-- A node of the built tree: either a `ScalarModel` leaf or a
`ComplexModel` with its child mapping and stored options. -/
inductive Model where
  | scalar (m : ScalarModel)
  | complex (fields : Fields) (options : FormModelOptions)

/-- The child mapping of a `ComplexModel`: property names to child nodes,
in insertion order (a JavaScript object; keys are unique). -/
inductive Fields where
  | nil
  | cons (field : String) (child : Model) (rest : Fields)

end

mutual

/-- One entry of a `FieldsDef` definition object: either a scalar field
definition `{label?, required?, initialValue?, placeholder?, rules?}` or a
nested definition object carrying the `__complex` discriminator. -/
inductive FieldDef where
  | scalarDef (label : Option String) (placeholder : Option String)
      (required : Bool) (initialValue : Option Value) (rules : List Validate)
  | complexDef (fields : FieldsDef)

/-- A definition object for the Tree Builder: property names to field
definitions, in insertion order. -/
inductive FieldsDef where
  | nil
  | cons (field : String) (d : FieldDef) (rest : FieldsDef)

end

mutual

/-- One step of the `reduce` in the `ComplexModel` constructor: a scalar
definition becomes a `ScalarModel` leaf (rules get `nonNullable` appended
when `required`; the options passed down are `{required, validateAllRules}`
— note no `initialValue`); a `__complex` definition recurses into
`ComplexModel.from` (stripping the discriminator) with the same options. -/
def buildField (options : FormModelOptions) (field : String) : FieldDef → Model
  | .scalarDef label placeholder required initialValue rules =>
    let iv := initialValue.getD Value.nullV
    Model.scalar (ScalarModel.make
      { placeholder := placeholder, field := field, label := label,
        rejections := some [], touched := false, value := clone iv }
      (if required then rules ++ [nonNullable] else rules)
      { initialValue := none, required := required,
        validateAllRules := options.validateAllRules })
  | .complexDef fs => Model.complex (buildFields options fs) options
termination_by structural d => d

/-- The body of the constructor's `reduce` over all definition entries. -/
def buildFields (options : FormModelOptions) : FieldsDef → Fields
  | .nil => .nil
  | .cons field d rest => .cons field (buildField options field d) (buildFields options rest)
termination_by structural ds => ds

end

/-- The `ComplexModel` constructor (also its static `from`): fold the
definition object into the child mapping and return the composite node. -/
def ComplexModel.make (fields : FieldsDef) (options : FormModelOptions) : Model :=
  Model.complex (buildFields options fields) options

/-- The child mapping as an association list, for stating properties that
quantify over children. -/
def Fields.toList : Fields → List (String × Model)
  | .nil => []
  | .cons k c rest => (k, c) :: Fields.toList rest

/-- Does the mapping contain the given key? -/
def Fields.hasKey : Fields → String → Bool
  | .nil, _ => false
  | .cons k _ rest, key => k == key || Fields.hasKey rest key

mutual

/-- The uniform `value` getter: a leaf returns its stored value; a
composite builds a fresh record from every child's `value`. -/
def Model.getValue : Model → Value
  | .scalar m => m.getValue
  | .complex fs _ => Value.objV (Fields.getValues fs)
termination_by structural m => m

/-- The composite `value` getter's `reduce`:
`{...result, [prop]: field.value}` over the children in order. -/
def Fields.getValues : Fields → List (String × Value)
  | .nil => []
  | .cons k c rest => (k, Model.getValue c) :: Fields.getValues rest
termination_by structural fs => fs

end

mutual

/-- The uniform `value` setter: a leaf stores the value verbatim; a
composite writes `v[key]` into every child in order. -/
def Model.setValue : Model → Value → Model
  | .scalar m, v => Model.scalar (m.setValue v)
  | .complex fs opts, v => Model.complex (Fields.setValues fs v) opts
termination_by structural m => m

/-- The composite `value` setter's loop: for each child key, assign
`value[key]` (absent keys assign `undefined`). -/
def Fields.setValues : Fields → Value → Fields
  | .nil, _ => .nil
  | .cons k c rest, v => .cons k (Model.setValue c (jsGet v k)) (Fields.setValues rest v)
termination_by structural fs => fs

end

mutual

/-- The uniform `valid` getter.  The composite computes
`!find(Object.keys(fields), key => !fields[key].valid)`: `find` returns the
first key whose child is invalid (or `undefined`), and the result is that
key's negated truthiness — so an invalid child stored under the empty-string
key still yields `true`.  A child whose own `valid` raises propagates the
error. -/
def Model.valid : Model → Except String Bool
  | .scalar m => m.valid
  | .complex fs _ =>
    match Fields.findInvalidKey fs with
    | .error e => .error e
    | .ok none => .ok true
    | .ok (some k) => .ok (k == "")
termination_by structural m => m

/-- The `find` in the composite `valid` getter: first key, in order, whose
child reports `valid` false; errors propagate. -/
def Fields.findInvalidKey : Fields → Except String (Option String)
  | .nil => .ok none
  | .cons k c rest =>
    match Model.valid c with
    | .error e => .error e
    | .ok true => Fields.findInvalidKey rest
    | .ok false => .ok (some k)
termination_by structural fs => fs

end

/-- The result of `validate()` through the uniform contract: a leaf yields
its (possibly `undefined`) rejection list, a composite a mapping from
property name to the child's result. -/
inductive ValidationResult where
  | scalarR (r : Option (List String))
  | complexR (rs : List (String × ValidationResult))

mutual

/-- The uniform `validate()`: a leaf runs its rule chain and stores the
result; a composite validates every child, collecting results by key. -/
def Model.validate : Model → Model × ValidationResult
  | .scalar m =>
    let p := m.validate
    (Model.scalar p.fst, ValidationResult.scalarR p.snd)
  | .complex fs opts =>
    let p := Fields.validateAll fs
    (Model.complex p.fst opts, ValidationResult.complexR p.snd)
termination_by structural m => m

/-- The composite `validate()`'s `reduce` over all children. -/
def Fields.validateAll : Fields → Fields × List (String × ValidationResult)
  | .nil => (.nil, [])
  | .cons k c rest =>
    let pc := Model.validate c
    let pr := Fields.validateAll rest
    (.cons k pc.fst pr.fst, (k, pc.snd) :: pr.snd)
termination_by structural fs => fs

end

mutual

/-- The uniform `reset()`: a leaf restores its initial value and clears
`touched`; a composite resets every child. -/
def Model.reset : Model → Model
  | .scalar m => Model.scalar m.reset
  | .complex fs opts => Model.complex (Fields.resetAll fs) opts
termination_by structural m => m

/-- The composite `reset()`'s loop over all children. -/
def Fields.resetAll : Fields → Fields
  | .nil => .nil
  | .cons k c rest => .cons k (Model.reset c) (Fields.resetAll rest)
termination_by structural fs => fs

end

mutual

/-- Well-formedness a tree built from a JavaScript definition object always
has: within each composite the child keys are pairwise distinct. -/
def Model.wf : Model → Bool
  | .scalar _ => true
  | .complex fs _ => Fields.wf fs
termination_by structural m => m

/-- Key uniqueness, recursively, for a child mapping. -/
def Fields.wf : Fields → Bool
  | .nil => true
  | .cons k c rest => !(Fields.hasKey rest k) && Model.wf c && Fields.wf rest
termination_by structural fs => fs

end

mutual

/-- Specification-side shape matching: `v` is a record whose keys are
exactly the composite's property names (in order), recursively through
nested composites; a leaf accepts any value. -/
def Model.matchesShape : Model → Value → Bool
  | .scalar _, _ => true
  | .complex fs _, v =>
    match v with
    | .objV vs => Fields.matchesShape fs vs
    | _ => false
termination_by structural m => m

/-- Shape matching between a child mapping and a record's field list. -/
def Fields.matchesShape : Fields → List (String × Value) → Bool
  | .nil, [] => true
  | .cons k c rest, (k', v) :: vs =>
    k == k' && Model.matchesShape c v && Fields.matchesShape rest vs
  | _, _ => false
termination_by structural fs => fs

end

/-- Are all child keys non-empty strings? -/
def Fields.allKeysNonempty : Fields → Bool
  | .nil => true
  | .cons k _ rest => !(k == "") && Fields.allKeysNonempty rest

/-- One operation of the scalar contract that writes state: a `value`
write or a `validate()` call. -/
inductive ScalarOp where
  | write (v : Value)
  | validateOp

/-- Apply one contract operation to a `ScalarModel`. -/
def ScalarModel.applyOp (m : ScalarModel) : ScalarOp → ScalarModel
  | .write v => m.setValue v
  | .validateOp => m.validate.fst

/-- Apply a sequence of contract operations, left to right. -/
def ScalarModel.applyOps (m : ScalarModel) (ops : List ScalarOp) : ScalarModel :=
  ops.foldl ScalarModel.applyOp m

/-- The child mapping of a node (a leaf has none). -/
def Model.fieldsOf : Model → Fields
  | .scalar _ => .nil
  | .complex fs _ => fs

/-- A fresh leaf with no rules in short-circuit mode. -/
def c1m1 : ScalarModel := ScalarModel.make
  { field := "f", label := none, touched := false, value := Value.nullV,
    placeholder := none, rejections := some [] }
  []
  { initialValue := none, required := false, validateAllRules := false }

/-- A leaf holding `"abc"` with the numeric rule, in exhaustive mode. -/
def c1m2 : ScalarModel := ScalarModel.make
  { field := "f", label := none, touched := false, value := Value.strV "abc",
    placeholder := none, rejections := some [] }
  [mustBeNumber]
  { initialValue := none, required := false, validateAllRules := true }

/-- A rule that always rejects with message `"A"`. -/
def ruleA : Validate := fun _ => RuleResult.strR "A"

/-- A rule that always rejects with message `"B"`. -/
def ruleB : Validate := fun _ => RuleResult.strR "B"

/-- A leaf with rules `[r1 rejects "A", r2 rejects "B"]` in short-circuit
mode. -/
def c4m : ScalarModel := ScalarModel.make
  { field := "f", label := none, touched := false, value := Value.nullV,
    placeholder := none, rejections := some [] }
  [ruleA, ruleB]
  { initialValue := none, required := false, validateAllRules := false }

/-- The definition object `{age: {required: true, rules: [mustBeNumber]}}`
of the end-to-end example. -/
def ageDef : FieldsDef :=
  FieldsDef.cons "age" (FieldDef.scalarDef none none true none [mustBeNumber]) FieldsDef.nil

/-- The tree built from `ageDef` with global `validateAllRules: false`. -/
def ageTree : Model := ComplexModel.make ageDef { validateAllRules := false }

/-- The end-to-end example run on the `age` leaf: set `"abc"`, validate,
set `null`, validate; yields the two returned rejection lists. -/
def c7Run : Option (Option (List String) × Option (List String)) :=
  match ageTree with
  | Model.complex (Fields.cons _ (Model.scalar sm) Fields.nil) _ =>
    let m1 := sm.setValue (Value.strV "abc")
    let p1 := m1.validate
    let m3 := p1.fst.setValue Value.nullV
    let p2 := m3.validate
    some (p1.snd, p2.snd)
  | _ => none

/-- The `age` tree after writing `{age: 5}` (a value every rule accepts)
and validating through the uniform contract. -/
def c2After : Model :=
  (Model.validate (Model.setValue ageTree (Value.objV [("age", Value.numV 5)]))).fst

/-- A definition object whose single field is stored under the empty-string
key. -/
def c9Def : FieldsDef :=
  FieldsDef.cons "" (FieldDef.scalarDef none none false none []) FieldsDef.nil

/-- The tree built from `c9Def`. -/
def c9Tree : Model := ComplexModel.make c9Def { validateAllRules := false }

/-- `c9Tree` after writing `{"": 1}`, which touches the child (making it
report `valid = false`, since it is touched with an empty rejection list). -/
def c9TreeTouched : Model :=
  Model.setValue c9Tree (Value.objV [("", Value.numV 1)])

/-- A two-field definition object for keys `a` and `b`. -/
def c8Def : FieldsDef :=
  FieldsDef.cons "a" (FieldDef.scalarDef none none false none [])
    (FieldsDef.cons "b" (FieldDef.scalarDef none none false none []) FieldsDef.nil)

/-- The child mapping built from `c8Def`. -/
def c8Fields : Fields := buildFields { validateAllRules := false } c8Def

/-- The record `{a: 1, b: "x"}`. -/
def c8Vs : List (String × Value) := [("a", Value.numV 1), ("b", Value.strV "x")]

/-- The child mapping of a one-field tree whose key `"a"` is non-empty. -/
def c9wFields : Fields :=
  buildFields { validateAllRules := false }
    (FieldsDef.cons "a" (FieldDef.scalarDef none none false none []) FieldsDef.nil)

/- ------------------------------------------------------------------ -/
/- Helper lemmas                                                      -/
/- ------------------------------------------------------------------ -/

theorem ScalarModel.setValue_value (m : ScalarModel) (v : Value) :
    (m.setValue v).state.value = v := by
  cases h : m.state.touched <;> simp [ScalarModel.setValue, h]

theorem ScalarModel.setValue_touched (m : ScalarModel) (v : Value) :
    (m.setValue v).state.touched = true := by
  cases h : m.state.touched <;> simp [ScalarModel.setValue, h]

theorem ScalarModel.setValue_rejections (m : ScalarModel) (v : Value) :
    (m.setValue v).state.rejections = m.state.rejections := by
  cases h : m.state.touched <;> simp [ScalarModel.setValue, h]

theorem ScalarModel.setValue_rules (m : ScalarModel) (v : Value) :
    (m.setValue v).rules = m.rules := by
  cases h : m.state.touched <;> simp [ScalarModel.setValue, h]

theorem ScalarModel.setValue_options (m : ScalarModel) (v : Value) :
    (m.setValue v).options = m.options := by
  cases h : m.state.touched <;> simp [ScalarModel.setValue, h]

theorem ScalarModel.validate_snd (m : ScalarModel) :
    m.validate.snd = iterateRulesGo m.state.value m.options.validateAllRules m.rules [] :=
  rfl

theorem ScalarModel.validate_fst_touched (m : ScalarModel) :
    m.validate.fst.state.touched = true := rfl

theorem ScalarModel.validate_fst_rejections (m : ScalarModel) :
    m.validate.fst.state.rejections = m.validate.snd := rfl

/-- In short-circuit mode the loop returns the first truthy rejection
appended to the accumulator, or falls off the end (`none`) when no rule
rejects. -/
theorem iterateRulesGo_false (v : Value) :
    ∀ (rules : List Validate) (acc : List String),
      iterateRulesGo v false rules acc =
        (firstTruthy rules v).map (fun s => acc ++ [s])
  | [], _ => rfl
  | check :: rest, acc => by
    simp only [iterateRulesGo, firstTruthy]
    cases check v with
    | strR s =>
      by_cases hs : s = "" <;> simp [hs, iterateRulesGo_false v rest]
    | nullR => exact iterateRulesGo_false v rest acc
    | undefR => exact iterateRulesGo_false v rest acc
    | falseR => exact iterateRulesGo_false v rest acc
    | zeroR => exact iterateRulesGo_false v rest acc

/-- Extending the rule chain cannot change the first truthy rejection when
one already exists. -/
theorem firstTruthy_append (v : Value) (more : List Validate) :
    ∀ (rules : List Validate) (s : String),
      firstTruthy rules v = some s → firstTruthy (rules ++ more) v = some s
  | [], s, h => by simp [firstTruthy] at h
  | check :: rest, s, h => by
    rw [List.cons_append]
    cases hc : check v with
    | strR t =>
      simp only [firstTruthy, hc] at h ⊢
      by_cases ht : t = ""
      · rw [if_pos ht] at h
        rw [if_pos ht]
        exact firstTruthy_append v more rest s h
      · rw [if_neg ht] at h
        rw [if_neg ht]
        exact h
    | nullR =>
      simp only [firstTruthy, hc] at h ⊢
      exact firstTruthy_append v more rest s h
    | undefR =>
      simp only [firstTruthy, hc] at h ⊢
      exact firstTruthy_append v more rest s h
    | falseR =>
      simp only [firstTruthy, hc] at h ⊢
      exact firstTruthy_append v more rest s h
    | zeroR =>
      simp only [firstTruthy, hc] at h ⊢
      exact firstTruthy_append v more rest s h

/- ------------------------------------------------------------------ -/
/- Claims                                                             -/
/- ------------------------------------------------------------------ -/

/-- Claim C1 (code bug, evaluated at the failing inputs): `iterateRules`
falls off its loop without a `return`, so `validate()` returns and stores
`undefined` (`none`) — not the empty list — when no rule rejects (`c1m1`,
short-circuit mode, no rules), and — not the collected messages — in
exhaustive mode even when a rule rejects (`c1m2`, `validateAllRules` set,
value `"abc"` rejected by `mustBeNumber`). -/
theorem validate_falls_off_loop :
    c1m1.validate.snd = none ∧ c1m1.validate.fst.state.rejections = none ∧
    c1m2.validate.snd = none ∧ c1m2.validate.fst.state.rejections = none :=
  ⟨rfl, rfl, rfl, rfl⟩

/-- Claim C2 (code bug, evaluated at the failing input): on the tree built
from `{age: {required: true, rules: [mustBeNumber]}}`, after writing
`{age: 5}` (accepted by every rule) and calling `validate()`, reading the
`valid` getter raises a `TypeError` — `rejections` is `undefined` and the
getter reads its `.length`. -/
theorem valid_getter_raises : Model.valid c2After = Except.error "TypeError" := rfl

/-- Claim C3: the scalar `valid` getter returns `true` exactly when the
node has never been touched or the most recent stored rejection list is
non-empty — the literal `!touched || rejections.length` policy. -/
theorem scalar_valid_iff (m : ScalarModel) :
    m.valid = Except.ok true ↔
      (m.state.touched = false ∨ ∃ rs, m.state.rejections = some rs ∧ rs ≠ []) := by
  cases ht : m.state.touched <;> cases hr : m.state.rejections <;>
    simp [ScalarModel.valid, ht, hr, List.isEmpty_iff]

/-- Claim C4: in short-circuit mode, when some rule in the chain returns a
truthy message for the current value, `validate()` returns — and stores —
exactly the single-element list holding the first such rule's message. -/
theorem shortcircuit_first_rejection (m : ScalarModel) (s : String)
    (hall : m.options.validateAllRules = false)
    (hfirst : firstTruthy m.rules m.state.value = some s) :
    m.validate.snd = some [s] ∧ m.validate.fst.state.rejections = some [s] := by
  have h2 : m.validate.snd = some [s] := by
    rw [ScalarModel.validate_snd, hall, iterateRulesGo_false, hfirst]
    rfl
  exact ⟨h2, by rw [ScalarModel.validate_fst_rejections, h2]⟩

/-- Witness for C4: with rules `[r1 rejects "A", r2 rejects "B"]` in
short-circuit mode, `validate()` returns exactly `["A"]`. -/
theorem shortcircuit_first_rejection_witness :
    c4m.options.validateAllRules = false ∧
    firstTruthy c4m.rules c4m.state.value = some "A" ∧
    (c4m.validate.snd = some ["A"] ∧ c4m.validate.fst.state.rejections = some ["A"]) :=
  ⟨rfl, rfl, shortcircuit_first_rejection c4m "A" rfl rfl⟩

/-- Claim C6: `reset()` sets `value` to a copy of the initial value
captured at construction, sets `touched` to `false` regardless of prior
state, and leaves the stored `rejections` unchanged; at construction the
captured initial value is a clone of the supplied one, defaulting to `null`
when none was given.  (Value equality models deep equality; reference
identity is not observable in a value-level embedding.) -/
theorem reset_restores_initial :
    (∀ m : ScalarModel,
      (m.reset).state.value = clone m.initialValue ∧
      (m.reset).state.touched = false ∧
      (m.reset).state.rejections = m.state.rejections) ∧
    (∀ (st : FieldState) (rules : List Validate) (opts : FieldModelOptions),
      (ScalarModel.make st rules opts).initialValue =
        clone (opts.initialValue.getD Value.nullV)) := by
  refine ⟨fun m => ⟨?_, rfl, ?_⟩, fun st rules opts => rfl⟩
  · show (m.setValue (clone m.initialValue)).state.value = clone m.initialValue
    exact ScalarModel.setValue_value m (clone m.initialValue)
  · show (m.setValue (clone m.initialValue)).state.rejections = m.state.rejections
    exact ScalarModel.setValue_rejections m (clone m.initialValue)

/-- Claim C7: on the tree built from
`{age: {required: true, rules: [mustBeNumber]}}` with
`validateAllRules: false`, setting `age.value = "abc"` and validating
returns exactly `["必须为数字"]`; then setting `age.value = null` and
validating returns exactly `["不能为空"]` (`Number(null)` is `0`, not
`NaN`, so the numeric rule accepts `null` and the appended required rule
fires). -/
theorem age_example_end_to_end :
    c7Run = some (some ["必须为数字"], some ["不能为空"]) := rfl

/-- Claim C10: once `touched` is `true`, any sequence of `value` writes and
`validate()` calls leaves it `true`; `reset()` is the operation that sets
it back to `false`. -/
theorem touched_monotone (m : ScalarModel) (ops : List ScalarOp)
    (h : m.state.touched = true) :
    (m.applyOps ops).state.touched = true ∧ (m.reset).state.touched = false := by
  refine ⟨?_, rfl⟩
  induction ops generalizing m with
  | nil => exact h
  | cons op rest ih =>
    simp only [ScalarModel.applyOps, List.foldl_cons] at ih ⊢
    cases op with
    | write v => exact ih _ (ScalarModel.setValue_touched m v)
    | validateOp => exact ih _ (ScalarModel.validate_fst_touched m)

/-- Claim C5: every leaf built by the Tree Builder with `required` set —
whatever the mode, the initial value, or the user rules — gets the built-in
`nonNullable` rule appended after all user-supplied rules (the rule chain
equals the supplied rules followed by the required rule); consequently, in
short-circuit mode, whenever a user rule earlier in the chain rejects the
current value, it determines the sole returned message, masking the
required message. -/
theorem required_rule_appended (opts : FormModelOptions) (key : String)
    (label placeholder : Option String) (iv : Option Value)
    (rules : List Validate) :
    ∃ sm : ScalarModel,
      buildField opts key (FieldDef.scalarDef label placeholder true iv rules) =
        Model.scalar sm ∧
      sm.rules = rules ++ [nonNullable] ∧
      (∀ (v : Value) (s : String), opts.validateAllRules = false →
        firstTruthy rules v = some s →
        (sm.setValue v).validate.snd = some [s]) := by
  refine ⟨_, rfl, rfl, ?_⟩
  intro v s hall hfirst
  rw [ScalarModel.validate_snd, ScalarModel.setValue_value, ScalarModel.setValue_options,
    ScalarModel.setValue_rules]
  show iterateRulesGo v opts.validateAllRules (rules ++ [nonNullable]) [] = some [s]
  rw [hall, iterateRulesGo_false, firstTruthy_append v [nonNullable] rules s hfirst]
  rfl

/-- Witness for C5: a required leaf with one always-rejecting user rule has
chain `[ruleA, nonNullable]` and, in short-circuit mode on the value
`null`, validates to exactly `["A"]`. -/
theorem required_rule_appended_witness :
    ∃ sm : ScalarModel,
      buildField { validateAllRules := false } "k"
          (FieldDef.scalarDef none none true none [ruleA]) = Model.scalar sm ∧
      sm.rules = [ruleA] ++ [nonNullable] ∧
      (sm.setValue Value.nullV).validate.snd = some ["A"] := by
  obtain ⟨sm, h1, h2, h3⟩ :=
    required_rule_appended { validateAllRules := false } "k" none none none [ruleA]
  exact ⟨sm, h1, h2, h3 Value.nullV "A" rfl rfl⟩

/-- Writing a record whose head key is absent from the mapping assigns the
same values as writing the record without that head entry. -/
theorem Fields.setValues_cons_of_not_hasKey (k : String) (v : Value)
    (tail : List (String × Value)) :
    ∀ (fs : Fields), Fields.hasKey fs k = false →
      Fields.setValues fs (Value.objV ((k, v) :: tail)) =
        Fields.setValues fs (Value.objV tail)
  | .nil, _ => rfl
  | .cons kj c rest, h => by
    simp only [Fields.hasKey, Bool.or_eq_false_iff] at h
    have hk : ¬(k = kj) := by
      intro he
      subst he
      simp at h
    have hj : jsGet (Value.objV ((k, v) :: tail)) kj = jsGet (Value.objV tail) kj := by
      simp [jsGet, lookupField, hk]
    simp only [Fields.setValues]
    rw [hj, Fields.setValues_cons_of_not_hasKey k v tail rest h.2]

mutual

/-- A node with pairwise-distinct keys round-trips any shape-matching value
through `set value` / `get value`. -/
theorem Model.setValue_getValue : ∀ (m : Model) (v : Value),
    Model.wf m = true → Model.matchesShape m v = true →
    Model.getValue (Model.setValue m v) = v
  | .scalar sm, v, _, _ => by
    simp only [Model.setValue, Model.getValue, ScalarModel.getValue]
    exact ScalarModel.setValue_value sm v
  | .complex fs opts, v, hwf, hm => by
    cases v with
    | objV vs =>
      simp only [Model.setValue, Model.getValue]
      exact congrArg Value.objV (Fields.setValues_getValues fs vs hwf hm)
    | nullV => simp [Model.matchesShape] at hm
    | undefV => simp [Model.matchesShape] at hm
    | numV n => simp [Model.matchesShape] at hm
    | nanV => simp [Model.matchesShape] at hm
    | strV s => simp [Model.matchesShape] at hm

/-- A child mapping with pairwise-distinct keys round-trips a record with
exactly its keys through the composite setter and getter. -/
theorem Fields.setValues_getValues : ∀ (fs : Fields) (vs : List (String × Value)),
    Fields.wf fs = true → Fields.matchesShape fs vs = true →
    Fields.getValues (Fields.setValues fs (Value.objV vs)) = vs
  | .nil, [], _, _ => rfl
  | .nil, p :: ps, _, hm => by simp [Fields.matchesShape] at hm
  | .cons k c rest, [], _, hm => by simp [Fields.matchesShape] at hm
  | .cons k c rest, (k', v) :: ps, hwf, hm => by
    simp only [Fields.matchesShape, Bool.and_eq_true, beq_iff_eq] at hm
    obtain ⟨⟨hk, hmc⟩, hmrest⟩ := hm
    simp only [Fields.wf, Bool.and_eq_true, Bool.not_eq_true'] at hwf
    obtain ⟨⟨hkey, hwc⟩, hwrest⟩ := hwf
    subst hk
    simp only [Fields.setValues, Fields.getValues]
    have hg : jsGet (Value.objV ((k, v) :: ps)) k = v := by
      simp [jsGet, lookupField]
    rw [hg, Model.setValue_getValue c v hwc hmc,
      Fields.setValues_cons_of_not_hasKey k v ps rest hkey,
      Fields.setValues_getValues rest ps hwrest hmrest]

end

/-- Claim C8: for a composite node with pairwise-distinct keys and a record
`v` whose keys are exactly the composite's property names (recursively
through nested composites), `get value` after `set value(v)` returns `v`. -/
theorem complex_value_roundtrip (fs : Fields) (opts : FormModelOptions)
    (vs : List (String × Value))
    (hwf : Fields.wf fs = true) (hm : Fields.matchesShape fs vs = true) :
    Model.getValue (Model.setValue (Model.complex fs opts) (Value.objV vs)) =
      Value.objV vs := by
  simp only [Model.setValue, Model.getValue]
  exact congrArg Value.objV (Fields.setValues_getValues fs vs hwf hm)

/-- Witness for C8: on the two-field tree with keys `a`, `b`, after
`set value({a: 1, b: "x"})` the getter returns `{a: 1, b: "x"}`. -/
theorem complex_value_roundtrip_witness :
    Fields.wf c8Fields = true ∧ Fields.matchesShape c8Fields c8Vs = true ∧
    Model.getValue (Model.setValue (Model.complex c8Fields { validateAllRules := false })
        (Value.objV c8Vs)) = Value.objV c8Vs :=
  ⟨rfl, rfl, complex_value_roundtrip c8Fields { validateAllRules := false } c8Vs rfl rfl⟩

/-- Claim C9 counterexample: on the tree whose single child is stored under
the empty-string key and is invalid (touched, empty rejection list), the
composite `valid` getter still returns `true`: the `find` in
`!find(Object.keys(fields), key => !fields[key].valid)` returns the falsy
key `""`. -/
theorem composite_valid_empty_key_counterexample :
    Model.valid c9TreeTouched = Except.ok true ∧
    (Fields.toList (Model.fieldsOf c9TreeTouched)).map (fun p => Model.valid p.snd) =
      [Except.ok false] :=
  ⟨rfl, rfl⟩

/-- Composite validity is child-wise validity, provided every child key is
a non-empty (hence truthy) string. -/
theorem composite_valid_iff_aux (opts : FormModelOptions) : ∀ (fs : Fields),
    Fields.allKeysNonempty fs = true →
    (Model.valid (Model.complex fs opts) = Except.ok true ↔
      ∀ p ∈ Fields.toList fs, Model.valid p.snd = Except.ok true)
  | .nil, _ => by simp [Model.valid, Fields.findInvalidKey, Fields.toList]
  | .cons k c rest, hkeys => by
    simp only [Fields.allKeysNonempty, Bool.and_eq_true, Bool.not_eq_true'] at hkeys
    obtain ⟨hk, hkeysrest⟩ := hkeys
    have ih := composite_valid_iff_aux opts rest hkeysrest
    simp only [Model.valid, Fields.findInvalidKey] at ih ⊢
    cases hc : Model.valid c with
    | error e => simp [Fields.toList, List.forall_mem_cons, hc]
    | ok b =>
      cases b with
      | true => simp [Fields.toList, List.forall_mem_cons, hc, ih]
      | false => simp [Fields.toList, List.forall_mem_cons, hc, hk]

/-- Claim C9 (amended): for every composite node all of whose child keys
are non-empty strings, the `valid` getter returns `true` iff every child's
`valid` getter returns `true`. -/
theorem composite_valid_iff_children (fs : Fields) (opts : FormModelOptions)
    (hkeys : Fields.allKeysNonempty fs = true) :
    Model.valid (Model.complex fs opts) = Except.ok true ↔
      ∀ p ∈ Fields.toList fs, Model.valid p.snd = Except.ok true :=
  composite_valid_iff_aux opts fs hkeys

/-- Witness for C9 (amended): the equivalence at a concrete one-field tree
with the non-empty key `a`. -/
theorem composite_valid_iff_children_witness :
    Fields.allKeysNonempty c9wFields = true ∧
    (Model.valid (Model.complex c9wFields { validateAllRules := false }) = Except.ok true ↔
      ∀ p ∈ Fields.toList c9wFields, Model.valid p.snd = Except.ok true) :=
  ⟨rfl, composite_valid_iff_children c9wFields { validateAllRules := false } rfl⟩

/-- Witness for C10: a touched leaf stays touched across a write and a
`validate()`, and `reset()` clears the flag. -/
theorem touched_monotone_witness :
    (c4m.setValue Value.nullV).state.touched = true ∧
    (((c4m.setValue Value.nullV).applyOps
        [ScalarOp.write (Value.numV 2), ScalarOp.validateOp]).state.touched = true ∧
      ((c4m.setValue Value.nullV).reset).state.touched = false) :=
  ⟨rfl, touched_monotone (c4m.setValue Value.nullV)
    [ScalarOp.write (Value.numV 2), ScalarOp.validateOp] rfl⟩

end StupidForm
